import Mathlib

/-!
Verification of the iidy batched list-storage engine (`pgstore` package,
`PgStore` methods) and its batch codec (`handlers.go`).

The store is shallowly embedded: the PostgreSQL table `iidy.lists
(list text, item text, attempts integer, primary key (list, item))`
becomes a list of `Row` values, each SQL statement becomes a pure function
on that list, and backing-engine failures (pgx errors) are injected
through explicit fault parameters so that the Go error-handling control
flow can be reproduced faithfully.

String comparison (`item > $3`, `order by item`) is modeled by an
executable code-point-lexicographic comparison `strCmp` on the character
data, corresponding to the byte-wise text ordering the pagination
contract relies on.
-/

namespace Iidy

/-- One row of the table `iidy.lists`: `(list text, item text, attempts
integer not null default 0)`, primary key `(list, item)`. `attempts` is a
`Nat` because the schema default is 0 and the only mutation is `+ 1`. -/
structure Row where
  list : String
  item : String
  attempts : Nat
deriving DecidableEq, Repr

/-- `ListEntry` from `pgstore.go`: a list item and its attempt count. -/
structure ListEntry where
  item : String
  attempts : Nat
deriving DecidableEq, Repr

/-- A backing-engine (pgx) error: a SQLSTATE-like code plus a message.
The structured `code` field stands for everything pgx-specific that the
store must not leak. -/
structure PgxError where
  code : String
  msg : String
deriving DecidableEq, Repr

/-- `fmt.Errorf("%v", err)`: repackage a pgx error as a plain error
carrying only its message text (the `%v` verb drops the concrete type
and, unlike `%w`, prevents unwrapping). -/
def wrapErr (e : PgxError) : String := e.msg

/-- The table state. -/
abbrev DB := List Row

/-- The `list_pk` primary-key invariant: no two rows share `(list, item)`. -/
abbrev keyUnique (db : DB) : Prop :=
  (db.map (fun r => (r.list, r.item))).Nodup

/-! ### Code-point lexicographic string order (the `order by item` collation) -/

/-- Three-way lexicographic comparison of character sequences by code
point; models the text ordering used by `order by list, item` and
`item > $3`. -/
def strCmp : List Char → List Char → Ordering
  | [], [] => Ordering.eq
  | [], _ :: _ => Ordering.lt
  | _ :: _, [] => Ordering.gt
  | a :: as, b :: bs =>
    if a = b then strCmp as bs
    else if a.toNat < b.toNat then Ordering.lt
    else Ordering.gt

/-- Strict order on strings: `s` sorts strictly before `t`. -/
def sLt (s t : String) : Prop := strCmp s.data t.data = Ordering.lt

/-- Reflexive order on strings. -/
def sLe (s t : String) : Prop := strCmp s.data t.data ≠ Ordering.gt

instance (s t : String) : Decidable (sLt s t) :=
  inferInstanceAs (Decidable (_ = _))

instance (s t : String) : Decidable (sLe s t) :=
  inferInstanceAs (Decidable (_ ≠ _))

theorem char_eq_of_toNat_eq {a b : Char} (h : a.toNat = b.toNat) : a = b :=
  Char.eq_of_val_eq (UInt32.eq_of_toBitVec_eq (BitVec.eq_of_toNat_eq h))

theorem strCmp_self : ∀ as : List Char, strCmp as as = Ordering.eq
  | [] => rfl
  | a :: as => by simp [strCmp, strCmp_self as]

theorem strCmp_eq_iff : ∀ {as bs : List Char}, strCmp as bs = Ordering.eq ↔ as = bs
  | [], [] => by simp [strCmp]
  | [], _ :: _ => by simp [strCmp]
  | _ :: _, [] => by simp [strCmp]
  | a :: as, b :: bs => by
    by_cases hab : a = b
    · subst hab
      simp [strCmp, strCmp_eq_iff]
    · have : a.toNat ≠ b.toNat := fun h => hab (char_eq_of_toNat_eq h)
      by_cases hlt : a.toNat < b.toNat <;> simp [strCmp, hab, hlt]

theorem strCmp_lt_iff_gt : ∀ {as bs : List Char},
    strCmp as bs = Ordering.lt ↔ strCmp bs as = Ordering.gt
  | [], [] => by simp [strCmp]
  | [], _ :: _ => by simp [strCmp]
  | _ :: _, [] => by simp [strCmp]
  | a :: as, b :: bs => by
    by_cases hab : a = b
    · subst hab
      simp [strCmp, strCmp_lt_iff_gt]
    · have hne : a.toNat ≠ b.toNat := fun h => hab (char_eq_of_toNat_eq h)
      by_cases hlt : a.toNat < b.toNat
      · have : ¬ b.toNat < a.toNat := Nat.lt_asymm hlt
        simp [strCmp, hab, Ne.symm hab, hlt, this]
      · have : b.toNat < a.toNat := Nat.lt_of_le_of_ne (Nat.le_of_not_lt hlt) (Ne.symm hne)
        simp [strCmp, hab, Ne.symm hab, hlt, this]

theorem strCmp_lt_trans : ∀ {as bs cs : List Char},
    strCmp as bs = Ordering.lt → strCmp bs cs = Ordering.lt →
    strCmp as cs = Ordering.lt
  | _, [], [] => by simp [strCmp]
  | as, bs, [] => by
    intro _ h2
    cases bs with
    | nil => simp [strCmp] at h2
    | cons b bs => simp [strCmp] at h2
  | [], bs, _ :: _ => by simp [strCmp]
  | a :: as, bs, c :: cs => by
    intro h1 h2
    cases bs with
    | nil => simp [strCmp] at h1
    | cons b bs =>
      by_cases hab : a = b
      · subst hab
        by_cases hbc : a = c
        · subst hbc
          simp only [strCmp, if_pos rfl] at h1 h2 ⊢
          exact strCmp_lt_trans h1 h2
        · simp only [strCmp, if_pos rfl, if_neg hbc] at h2 ⊢
          exact h2
      · by_cases hbc : b = c
        · subst hbc
          simp only [strCmp, if_neg hab] at h1 ⊢
          exact h1
        · have h1' : a.toNat < b.toNat := by
            by_cases hlt : a.toNat < b.toNat
            · exact hlt
            · simp [strCmp, hab, hlt] at h1
          have h2' : b.toNat < c.toNat := by
            by_cases hlt : b.toNat < c.toNat
            · exact hlt
            · simp [strCmp, hbc, hlt] at h2
          have hac' : a.toNat < c.toNat := Nat.lt_trans h1' h2'
          have hac : a ≠ c := fun h => by
            subst h
            exact Nat.lt_irrefl _ hac'
          simp [strCmp, hac, hac']

theorem sLt_trans {a b c : String} (h1 : sLt a b) (h2 : sLt b c) : sLt a c :=
  strCmp_lt_trans h1 h2

theorem sLt_irrefl (a : String) : ¬ sLt a a := by
  simp [sLt, strCmp_self]

theorem not_sLt_of_sLe {a b : String} (h : sLe b a) : ¬ sLt a b := by
  intro hlt
  exact h (strCmp_lt_iff_gt.mp hlt)

theorem sLe_of_sLt {a b : String} (h : sLt a b) : sLe a b := by
  intro hgt
  have h' : strCmp a.data b.data = Ordering.lt := h
  rw [h'] at hgt
  simp at hgt

theorem sLt_of_sLe_of_ne {a b : String} (h : sLe a b) (hne : a ≠ b) : sLt a b := by
  have hdata : a.data ≠ b.data := fun hd => hne (by
    cases a; cases b; simp only at hd; rw [hd])
  show strCmp a.data b.data = Ordering.lt
  rcases ho : strCmp a.data b.data with _ | _ | _
  · rfl
  · exact absurd (strCmp_eq_iff.mp ho) hdata
  · exact absurd ho h

theorem sLe_refl (a : String) : sLe a a := by
  simp [sLe, strCmp_self]

theorem sLe_total (a b : String) : sLe a b ∨ sLe b a := by
  rcases ho : strCmp a.data b.data with _ | _ | _
  · exact Or.inl (by simp [sLe, ho])
  · exact Or.inl (by simp [sLe, ho])
  · exact Or.inr (by simp [sLe, strCmp_lt_iff_gt.mpr ho])

theorem sLe_trans {a b c : String} (h1 : sLe a b) (h2 : sLe b c) : sLe a c := by
  show strCmp a.data c.data ≠ Ordering.gt
  rcases ho : strCmp a.data b.data with _ | _ | _
  · rcases ho2 : strCmp b.data c.data with _ | _ | _
    · have h3 : sLt a c := sLt_trans ho ho2
      exact h3 ▸ (by simp)
    · rw [← strCmp_eq_iff.mp ho2]
      simp [ho]
    · exact absurd ho2 h2
  · rw [strCmp_eq_iff.mp ho]
    exact h2
  · exact absurd ho h1

/-! ### Row ordering (the `order by list, item` scan within one list) -/

/-- Reflexive comparison of rows by `item` (rows compared by the scan all
share the same `list`, so `order by list, item` reduces to `item`). -/
def rowLe (a b : Row) : Prop := sLe a.item b.item

/-- Strict comparison of rows by `item`. -/
def rowLt (a b : Row) : Prop := sLt a.item b.item

instance : DecidableRel rowLe := fun a b =>
  inferInstanceAs (Decidable (sLe a.item b.item))

instance : DecidableRel rowLt := fun a b =>
  inferInstanceAs (Decidable (sLt a.item b.item))

instance : IsTotal Row rowLe := ⟨fun a b => sLe_total a.item b.item⟩

instance : IsTrans Row rowLe := ⟨fun _ _ _ h1 h2 => sLe_trans h1 h2⟩

instance : IsAntisymm Row rowLt :=
  ⟨fun _ _ h1 h2 => absurd h1 (not_sLt_of_sLe (sLe_of_sLt h2))⟩

/-! ### ListStore operations (`PgStore` methods)

Each operation takes the table state and an optional injected
backing-engine fault standing for a failure of the underlying
`pool.Exec` / `pool.Query` / `pool.CopyFrom` call.  Row counts
(`commandTag.RowsAffected()`, an `int64` that is always a non-negative
row count here) are modeled as `Nat`. -/

/-- The SQL predicate `where list = $1 and item = $2`. -/
def rowMatches (list item : String) (r : Row) : Bool :=
  r.list == list && r.item == item

/-- `PgStore.InsertOne`: `insert into iidy.lists (list, item) values
($1, $2)`.  A duplicate `(list, item)` violates `list_pk` and surfaces
as a (wrapped) backend error. -/
def insertOne (db : DB) (list item : String) (fault : Option PgxError) :
    DB × Nat × Option String :=
  match fault with
  | some e => (db, 0, some (wrapErr e))
  | none =>
    if db.any (rowMatches list item) then
      (db, 0, some (wrapErr ⟨"23505", "duplicate key value violates unique constraint list_pk"⟩))
    else
      (db ++ [⟨list, item, 0⟩], 1, none)

/-- `PgStore.GetOne`: `select attempts from iidy.lists where list = $1
and item = $2`, scanned via `QueryRow`.  Zero rows yields `pgx.ErrNoRows`,
which the code maps to `(0, false, nil)`; any other error is wrapped. -/
def getOne (db : DB) (list item : String) (fault : Option PgxError) :
    Nat × Bool × Option String :=
  match fault with
  | some e => (0, false, some (wrapErr e))
  | none =>
    match db.find? (rowMatches list item) with
    | some r => (r.attempts, true, none)
    | none => (0, false, none)

/-- `PgStore.DeleteOne`: `delete from iidy.lists where list = $1 and
item = $2`; returns the number of rows removed. -/
def deleteOne (db : DB) (list item : String) (fault : Option PgxError) :
    DB × Nat × Option String :=
  match fault with
  | some e => (db, 0, some (wrapErr e))
  | none =>
    (db.filter (fun r => !(rowMatches list item r)),
     db.countP (rowMatches list item), none)

/-- `PgStore.IncrementOne`: `update iidy.lists set attempts = attempts + 1
where list = $1 and item = $2`; returns the number of rows updated. -/
def incrementOne (db : DB) (list item : String) (fault : Option PgxError) :
    DB × Nat × Option String :=
  match fault with
  | some e => (db, 0, some (wrapErr e))
  | none =>
    (db.map (fun r =>
       if rowMatches list item r then { r with attempts := r.attempts + 1 } else r),
     db.countP (rowMatches list item), none)

/-- `PgStore.InsertBatch`: empty/nil `items` returns `(0, nil)` before
any pool call; otherwise `pool.CopyFrom` bulk-copies `(list, item)` rows
(`attempts` takes its schema default 0).  The copy is atomic: a `list_pk`
violation (an item already present, or repeated within `items`) fails the
whole statement with a wrapped error and no rows are added. -/
def insertBatch (db : DB) (list : String) (items : List String)
    (fault : Option PgxError) : DB × Nat × Option String :=
  if items.isEmpty then (db, 0, none)
  else
    match fault with
    | some e => (db, 0, some (wrapErr e))
    | none =>
      if (∃ i ∈ items, db.any (rowMatches list i) = true) ∨ ¬ items.Nodup then
        (db, 0, some (wrapErr ⟨"23505", "duplicate key value violates unique constraint list_pk"⟩))
      else
        (db ++ items.map (fun i => ⟨list, i, 0⟩), items.length, none)

/-- `PgStore.DeleteBatch`: empty/nil `items` returns `(0, nil)` before any
pool call; otherwise `delete from iidy.lists where list = $1 and item in
(select unnest($2::text[]))`. -/
def deleteBatch (db : DB) (list : String) (items : List String)
    (fault : Option PgxError) : DB × Nat × Option String :=
  if items.isEmpty then (db, 0, none)
  else
    match fault with
    | some e => (db, 0, some (wrapErr e))
    | none =>
      (db.filter (fun r => !(r.list == list && items.contains r.item)),
       db.countP (fun r => r.list == list && items.contains r.item), none)

/-- `PgStore.IncrementBatch`: empty/nil `items` returns `(0, nil)` before
any pool call; otherwise `update iidy.lists set attempts = attempts + 1
where list = $1 and item in (select unnest($2::text[]))`. -/
def incrementBatch (db : DB) (list : String) (items : List String)
    (fault : Option PgxError) : DB × Nat × Option String :=
  if items.isEmpty then (db, 0, none)
  else
    match fault with
    | some e => (db, 0, some (wrapErr e))
    | none =>
      (db.map (fun r =>
         if r.list == list && items.contains r.item then
           { r with attempts := r.attempts + 1 }
         else r),
       db.countP (fun r => r.list == list && items.contains r.item), none)

/-! ### GetBatch -/

/-- Faults a `pool.Query` rows stream can inject into `GetBatch`:
the initial `Query` call failing, `rows.Scan` failing at some row index,
or `rows.Err()` being set after the iteration loop. -/
structure GetBatchFault where
  queryErr : Option PgxError
  scanErr : Option (Nat × PgxError)
  rowsErr : Option PgxError
deriving DecidableEq, Repr

/-- A healthy backing store: no fault anywhere. -/
def noFault : GetBatchFault := ⟨none, none, none⟩

/-- `where list = $1` : the rows of one list. -/
def listRows (db : DB) (list : String) : List Row :=
  db.filter (fun r => r.list == list)

/-- The `where` clause of the `GetBatch` query: `list = $1` and, when
`startID` is non-empty, additionally `item > $3`. -/
def whereRows (db : DB) (list startID : String) : List Row :=
  if startID = "" then listRows db list
  else (listRows db list).filter (fun r => decide (sLt startID r.item))

/-- The rows produced by the `GetBatch` query: `where` clause, then
`order by list, item`, then `limit $2`. -/
def selectRows (db : DB) (list startID : String) (count : Nat) : List Row :=
  (List.insertionSort rowLe (whereRows db list startID)).take count

/-- `rows.Scan(&item, &attempts)` for one row. -/
def rowEntry (r : Row) : ListEntry := ⟨r.item, r.attempts⟩

/-- The `for rows.Next()` scan loop: if `rows.Scan` fails at some row of
the stream the loop returns the wrapped error; otherwise it accumulates
every row as a `ListEntry`. -/
def scanRows (rows : List Row) (scanErr : Option (Nat × PgxError)) :
    Except String (List ListEntry) :=
  match scanErr with
  | some (j, e) =>
    if j < rows.length then Except.error (wrapErr e)
    else Except.ok (rows.map rowEntry)
  | none => Except.ok (rows.map rowEntry)

/-- `PgStore.GetBatch`.  `count == 0` returns an empty slice before any
pool call.  After the scan loop the source checks `rows.Err()` but on
that branch returns the stale loop variable `err` (which is necessarily
`nil` there, every scan having succeeded), i.e. `(nil, nil)`, not the
value of `rows.Err()`. -/
def getBatchGo (db : DB) (list startID : String) (count : Nat)
    (f : GetBatchFault) : List ListEntry × Option String :=
  if count = 0 then ([], none)
  else
    match f.queryErr with
    | some e => ([], some (wrapErr e))
    | none =>
      match scanRows (selectRows db list startID count) f.scanErr with
      | Except.error msg => ([], some msg)
      | Except.ok items =>
        match f.rowsErr with
        | some _ => ([], none)
        | none => (items, none)

/-- `GetBatch` against a healthy backing store: just the entries. -/
def getBatch (db : DB) (list startID : String) (count : Nat) : List ListEntry :=
  (getBatchGo db list startID count noFault).1

/-- The client-side keyset-pagination driver the spec describes: call
`GetBatch` with the previous page's last item as the cursor (starting
from `""`) until a page shorter than `P` arrives.  `fuel` bounds the
number of calls so the driver is total. -/
def paginateFrom (db : DB) (list : String) (P : Nat) :
    Nat → String → List ListEntry
  | 0, _ => []
  | Nat.succ fuel, after =>
    let page := getBatch db list after P
    if page.length < P then page
    else
      match page.getLast? with
      | none => page
      | some e => page ++ paginateFrom db list P fuel e.item

/-- All rows of a list in scan order: what a complete traversal must
produce (as rows). -/
def sortedList (db : DB) (list : String) : List Row :=
  List.insertionSort rowLe (listRows db list)

/-- All entries of a list in scan order: what a complete traversal must
produce. -/
def sortedEntries (db : DB) (list : String) : List ListEntry :=
  (sortedList db list).map rowEntry

/-! ### Batch codec (`handlers.go`) -/

/-- `unicode.IsSpace`: the Unicode White_Space code points Go's
`TrimSpace` strips - TAB..CR, space, NEL, NBSP, OGHAM SPACE MARK, the
EN QUAD..HAIR SPACE block, LINE SEPARATOR, PARAGRAPH SEPARATOR,
NARROW NO-BREAK SPACE, MEDIUM MATHEMATICAL SPACE, IDEOGRAPHIC SPACE. -/
def goIsSpace (c : Char) : Bool :=
  c == ' ' || c == '\t' || c == '\n' || c == '\x0b' || c == '\x0c' ||
  c == '\r' || c == '\u0085' || c == '\u00a0' || c == '\u1680' ||
  (decide (0x2000 ≤ c.toNat) && decide (c.toNat ≤ 0x200a)) ||
  c == '\u2028' || c == '\u2029' || c == '\u202f' || c == '\u205f' ||
  c == '\u3000'

/-- `strings.TrimSpace`: drop leading and trailing white space of the
whole payload. -/
def trimSpace (s : String) : String :=
  String.mk (((s.data.dropWhile goIsSpace).reverse.dropWhile goIsSpace).reverse)

/-- `strings.Split(s, "\n")` on character data: one more piece than there
are newline separators; splitting the empty string yields `[[]]`. -/
def splitNL : List Char → List (List Char)
  | [] => [[]]
  | c :: cs =>
    if c = '\n' then [] :: splitNL cs
    else
      match splitNL cs with
      | [] => [[c]]
      | w :: ws => (c :: w) :: ws

/-- `strings.Split(bodyString, "\n")`. -/
def splitOnNewline (s : String) : List String :=
  (splitNL s.data).map String.mk

/-- `getItemsFromPlainText`: a nil/empty body yields a nil slice;
otherwise trim the whole payload, then split on newline. -/
def getItemsFromPlainText (body : String) : List String :=
  if body = "" then []
  else splitOnNewline (trimSpace body)

/-- `getItemsFromBody`: nil/empty body yields `(nil, nil)`; a JSON
content type delegates to the JSON decoder (abstracted as `jsonDecode`);
every other content type defaults to the plain-text parse, which cannot
fail. -/
def getItemsFromBody (jsonDecode : String → Except String (List String))
    (contentType body : String) : Except String (List String) :=
  if body = "" then Except.ok []
  else if contentType = "application/json" then jsonDecode body
  else Except.ok (getItemsFromPlainText body)

/-- `HandledContentTypes`: the content types the service understands. -/
def HandledContentTypes : List String := ["text/plain", "application/json"]

/-- `contentTypeHeaderToContext`: an absent (`""`) or unhandled
Content-Type header defaults to `text/plain`. -/
def finalContentType (header : String) : String :=
  if header = "" ∨ ¬ header ∈ HandledContentTypes then "text/plain" else header

/-- The two wire encodings of requests and responses. -/
inductive Encoding where
  | plainText
  | json
deriving DecidableEq, Repr

/-- The encoding `printListEntries` / `printSuccess` / `printError`
select: JSON exactly when the negotiated content type is
`application/json`, plain text otherwise. -/
def responseEncoding (contentType : String) : Encoding :=
  if contentType = "application/json" then Encoding.json else Encoding.plainText

/-! ### Structural lemmas about the scan -/

instance : IsTotal String sLe := ⟨sLe_total⟩

instance : IsTrans String sLe := ⟨fun _ _ _ => sLe_trans⟩

instance : DecidableRel sLe := fun s t =>
  inferInstanceAs (Decidable (sLe s t))

theorem rowMatches_iff {list item : String} {r : Row} :
    rowMatches list item r = true ↔ r.list = list ∧ r.item = item := by
  simp [rowMatches]

theorem mem_of_getLast?_eq_some {l : List Row} {x : Row}
    (h : l.getLast? = some x) : x ∈ l := by
  cases l with
  | nil => simp at h
  | cons a t =>
    rw [List.getLast?_eq_getLast _ (List.cons_ne_nil a t)] at h
    injection h with h
    exact h ▸ List.getLast_mem (List.cons_ne_nil a t)

theorem items_nodup {db : DB} {list : String} (hkey : keyUnique db) :
    ((listRows db list).map Row.item).Nodup := by
  show List.Pairwise (fun a b => a ≠ b) ((listRows db list).map Row.item)
  rw [List.pairwise_map]
  have hkey' : List.Pairwise (fun a b => a ≠ b)
      (db.map (fun r => (r.list, r.item))) := hkey
  have h1 : db.Pairwise (fun a b => (a.list, a.item) ≠ (b.list, b.item)) :=
    List.pairwise_map.mp hkey'
  have h2 := h1.filter (fun r => r.list == list)
  refine h2.imp_of_mem ?_
  intro a b ha hb hne hitem
  have ha' : a.list = list := by simpa using List.of_mem_filter ha
  have hb' : b.list = list := by simpa using List.of_mem_filter hb
  exact hne (by rw [ha', hb', hitem])

theorem pairwise_lt_of_sorted_nodup {l : List Row}
    (hs : List.Sorted rowLe l) (hn : (l.map Row.item).Nodup) :
    l.Pairwise rowLt := by
  have hn0 : List.Pairwise (fun a b => a ≠ b) (l.map Row.item) := hn
  have hn' : l.Pairwise (fun a b => a.item ≠ b.item) :=
    List.pairwise_map.mp hn0
  exact (List.Pairwise.and hs hn').imp (fun h => sLt_of_sLe_of_ne h.1 h.2)

theorem sortedList_sorted (db : DB) (list : String) :
    List.Sorted rowLe (sortedList db list) :=
  List.sorted_insertionSort rowLe (listRows db list)

theorem sortedList_perm (db : DB) (list : String) :
    List.Perm (sortedList db list) (listRows db list) :=
  List.perm_insertionSort rowLe (listRows db list)

theorem sortedList_pairwise_lt {db : DB} (list : String) (hkey : keyUnique db) :
    (sortedList db list).Pairwise rowLt := by
  refine pairwise_lt_of_sorted_nodup (sortedList_sorted db list) ?_
  have hperm : List.Perm ((sortedList db list).map Row.item)
      ((listRows db list).map Row.item) :=
    (sortedList_perm db list).map Row.item
  exact hperm.nodup_iff.mpr (items_nodup hkey)

theorem insertionSort_filter {db : DB} {list : String} (hkey : keyUnique db)
    (p : Row → Bool) :
    List.insertionSort rowLe ((listRows db list).filter p)
      = (sortedList db list).filter p := by
  have hperm : List.Perm (List.insertionSort rowLe ((listRows db list).filter p))
      ((sortedList db list).filter p) :=
    (List.perm_insertionSort rowLe _).trans
      (((sortedList_perm db list).filter p).symm)
  have hs1 : (List.insertionSort rowLe ((listRows db list).filter p)).Pairwise rowLt := by
    refine pairwise_lt_of_sorted_nodup (List.sorted_insertionSort rowLe _) ?_
    have hsub : List.Sublist (((listRows db list).filter p).map Row.item)
        ((listRows db list).map Row.item) :=
      (List.filter_sublist _).map Row.item
    have hnd : (((listRows db list).filter p).map Row.item).Nodup :=
      (items_nodup hkey).sublist hsub
    have hperm2 : List.Perm
        ((List.insertionSort rowLe ((listRows db list).filter p)).map Row.item)
        (((listRows db list).filter p).map Row.item) :=
      (List.perm_insertionSort rowLe _).map Row.item
    exact hperm2.nodup_iff.mpr hnd
  have hs2 : ((sortedList db list).filter p).Pairwise rowLt :=
    (sortedList_pairwise_lt list hkey).filter p
  exact List.eq_of_perm_of_sorted hperm hs1 hs2

/-- The suffix of the full sorted scan that a cursor `c` exposes. -/
def restRows (db : DB) (list c : String) : List Row :=
  if c = "" then sortedList db list
  else (sortedList db list).filter (fun r => decide (sLt c r.item))

theorem restRows_pairwise_lt {db : DB} (list c : String) (hkey : keyUnique db) :
    (restRows db list c).Pairwise rowLt := by
  unfold restRows
  split
  · exact sortedList_pairwise_lt list hkey
  · exact (sortedList_pairwise_lt list hkey).filter _

theorem mem_listRows_of_mem_restRows {db : DB} {list c : String} {r : Row}
    (h : r ∈ restRows db list c) : r ∈ listRows db list := by
  unfold restRows at h
  split at h
  · exact (sortedList_perm db list).mem_iff.mp h
  · exact (sortedList_perm db list).mem_iff.mp (List.mem_filter.mp h).1

theorem getBatch_eq (db : DB) (list startID : String) (count : Nat) :
    getBatch db list startID count
      = if count = 0 then [] else (selectRows db list startID count).map rowEntry := by
  by_cases hc : count = 0 <;> simp [getBatch, getBatchGo, noFault, scanRows, hc]

theorem selectRows_eq {db : DB} {list : String} (hkey : keyUnique db)
    (c : String) (count : Nat) :
    selectRows db list c count = (restRows db list c).take count := by
  unfold selectRows whereRows restRows
  by_cases hc : c = ""
  · simp [hc, sortedList]
  · simp only [hc, if_neg, ite_false]
    rw [insertionSort_filter hkey]

theorem le_getLast_of_pairwise :
    ∀ {l : List Row}, l.Pairwise rowLt → ∀ {x : Row}, l.getLast? = some x →
      ∀ y ∈ l, sLe y.item x.item
  | [], _, _, hx => by simp at hx
  | [a], _, x, hx => by
    intro y hy
    simp at hx hy
    rw [hy, ← hx]
    exact sLe_refl _
  | a :: b :: t, hp, x, hx => by
    intro y hy
    have hx' : (b :: t).getLast? = some x := by
      simpa [List.getLast?] using hx
    rcases List.mem_cons.mp hy with hya | hyt
    · have hxm : x ∈ b :: t := mem_of_getLast?_eq_some hx'
      have hlt : rowLt a x := (List.pairwise_cons.mp hp).1 x hxm
      exact hya ▸ sLe_of_sLt hlt
    · exact le_getLast_of_pairwise (List.pairwise_cons.mp hp).2 hx' y hyt

theorem filter_gt_eq_drop {L : List Row} (hL : L.Pairwise rowLt) {n : Nat} {x : Row}
    (hx : (L.take n).getLast? = some x) :
    L.filter (fun r => decide (sLt x.item r.item)) = L.drop n := by
  have htp : (L.take n).Pairwise rowLt := hL.sublist (List.take_sublist n L)
  have hle : ∀ y ∈ L.take n, sLe y.item x.item := le_getLast_of_pairwise htp hx
  have hxmem : x ∈ L.take n := mem_of_getLast?_eq_some hx
  have hgt : ∀ y ∈ L.drop n, sLt x.item y.item := by
    intro y hy
    have hsplit : L.take n ++ L.drop n = L := List.take_append_drop n L
    have hp : (L.take n ++ L.drop n).Pairwise rowLt := by rw [hsplit]; exact hL
    exact (List.pairwise_append.mp hp).2.2 x hxmem y hy
  calc L.filter (fun r => decide (sLt x.item r.item))
      = (L.take n ++ L.drop n).filter (fun r => decide (sLt x.item r.item)) := by
        rw [List.take_append_drop]
    _ = (L.take n).filter (fun r => decide (sLt x.item r.item))
        ++ (L.drop n).filter (fun r => decide (sLt x.item r.item)) :=
        List.filter_append _ _
    _ = [] ++ L.drop n := by
        rw [List.filter_eq_nil_iff.mpr, List.filter_eq_self.mpr]
        · intro y hy
          simpa using hgt y hy
        · intro y hy
          simpa using not_sLt_of_sLe (hle y hy)
    _ = L.drop n := by simp

theorem restRows_cursor_drop {db : DB} {list c : String} (hkey : keyUnique db)
    (hne : ∀ r ∈ listRows db list, r.item ≠ "") {P : Nat} {x : Row}
    (hx : ((restRows db list c).take P).getLast? = some x) :
    restRows db list x.item = (restRows db list c).drop P := by
  have hxtake : x ∈ (restRows db list c).take P := mem_of_getLast?_eq_some hx
  have hxrest : x ∈ restRows db list c := List.mem_of_mem_take hxtake
  have hxlist : x ∈ listRows db list := mem_listRows_of_mem_restRows hxrest
  have hxne : x.item ≠ "" := hne x hxlist
  have hxdef : restRows db list x.item
      = (sortedList db list).filter (fun r => decide (sLt x.item r.item)) := by
    unfold restRows
    rw [if_neg hxne]
  by_cases hc : c = ""
  · have hrest : restRows db list c = sortedList db list := by
      unfold restRows
      rw [if_pos hc]
    rw [hxdef, hrest]
    rw [hrest] at hx
    exact filter_gt_eq_drop (sortedList_pairwise_lt list hkey) hx
  · have hrest : restRows db list c
        = (sortedList db list).filter (fun r => decide (sLt c r.item)) := by
      unfold restRows
      rw [if_neg hc]
    have hcx : sLt c x.item := by
      have := List.of_mem_filter (hrest ▸ hxrest)
      simpa using this
    have hstep1 : (sortedList db list).filter (fun r => decide (sLt x.item r.item))
        = (restRows db list c).filter (fun r => decide (sLt x.item r.item)) := by
      rw [hrest, List.filter_filter]
      refine List.filter_congr ?_
      intro r _
      by_cases hr : sLt x.item r.item
      · have hcr : sLt c r.item := sLt_trans hcx hr
        simp [hr, hcr]
      · simp [hr]
    rw [hxdef, hstep1]
    exact filter_gt_eq_drop (restRows_pairwise_lt list c hkey) hx

theorem paginateFrom_eq_rest {db : DB} {list : String} {P : Nat} (hP : 0 < P)
    (hkey : keyUnique db) (hne : ∀ r ∈ listRows db list, r.item ≠ "") :
    ∀ fuel (c : String), (restRows db list c).length ≤ fuel * P →
      paginateFrom db list P fuel c = (restRows db list c).map rowEntry := by
  intro fuel
  induction fuel with
  | zero =>
    intro c hlen
    have h0 : (restRows db list c).length = 0 := Nat.le_zero.mp (by simpa using hlen)
    have : restRows db list c = [] := List.eq_nil_of_length_eq_zero h0
    simp [paginateFrom, this]
  | succ fuel ih =>
    intro c hlen
    have hpage : getBatch db list c P = ((restRows db list c).take P).map rowEntry := by
      rw [getBatch_eq, if_neg (Nat.pos_iff_ne_zero.mp hP), selectRows_eq hkey]
    show (let page := getBatch db list c P;
      if page.length < P then page
      else
        match page.getLast? with
        | none => page
        | some e => page ++ paginateFrom db list P fuel e.item)
      = (restRows db list c).map rowEntry
    rw [hpage]
    by_cases hlt : (((restRows db list c).take P).map rowEntry).length < P
    · rw [if_pos hlt]
      have hlen' : (restRows db list c).length < P := by
        rw [List.length_map, List.length_take] at hlt
        omega
      rw [List.take_of_length_le (Nat.le_of_lt hlen')]
    · rw [if_neg hlt]
      have hlenP : ((restRows db list c).take P).length = P := by
        rw [List.length_map, List.length_take] at hlt
        rw [List.length_take]
        omega
      rcases ho : ((restRows db list c).take P).getLast? with _ | x
      · exfalso
        have : (restRows db list c).take P = [] := List.getLast?_eq_none_iff.mp ho
        rw [this] at hlenP
        exact Nat.pos_iff_ne_zero.mp hP hlenP.symm
      · rw [List.getLast?_map, ho]
        show ((restRows db list c).take P).map rowEntry
            ++ paginateFrom db list P fuel (rowEntry x).item
          = (restRows db list c).map rowEntry
        have hdrop : restRows db list (rowEntry x).item
            = (restRows db list c).drop P :=
          restRows_cursor_drop hkey hne ho
        have hdlen : (restRows db list (rowEntry x).item).length ≤ fuel * P := by
          rw [hdrop, List.length_drop]
          have : (restRows db list c).length ≤ fuel * P + P := by
            calc (restRows db list c).length ≤ (fuel + 1) * P := hlen
            _ = fuel * P + P := by ring
          omega
        rw [ih (rowEntry x).item hdlen, hdrop, ← List.map_append,
          List.take_append_drop]

/-! ### Claim theorems -/

/-- C1 (counterexample): the pagination protocol is broken by a list that
contains the empty-string item, because the empty string doubles as the
"start from the beginning" cursor.  For the one-item list `[("l","",0)]`
with page size 1, every page is `[("",0)]`, never shorter than 1, and its
last item resubmits the empty cursor, so the driver re-reads the first
page forever: two rounds already yield the item twice, contradicting
"all K items exactly once each with no duplicates". -/
theorem paginate_empty_item_counterexample :
    getBatch [Row.mk "l" "" 0] "l" "" 1 = [ListEntry.mk "" 0] ∧
    paginateFrom [Row.mk "l" "" 0] "l" 1 2 "" = [ListEntry.mk "" 0, ListEntry.mk "" 0] ∧
    sortedEntries [Row.mk "l" "" 0] "l" = [ListEntry.mk "" 0] ∧
    paginateFrom [Row.mk "l" "" 0] "l" 1 2 "" ≠ sortedEntries [Row.mk "l" "" 0] "l" := by
  decide

/-- C1 (amended): for every table satisfying the `list_pk` invariant and
every list none of whose items is the empty string, driving `GetBatch`
with page size `P > 0` and the previous page's last item as the next
cursor (starting from `""`, with enough fuel for all rows) yields exactly
the full contents of the list: every `(item, attempts)` row exactly once,
in strictly ascending item order, with no duplicates and no omissions
across page boundaries. -/
theorem getBatch_keyset_pagination (db : DB) (list : String) (P fuel : Nat)
    (hP : 0 < P) (hkey : keyUnique db)
    (hne : ∀ r ∈ listRows db list, r.item ≠ "")
    (hfuel : (listRows db list).length ≤ fuel * P) :
    paginateFrom db list P fuel "" = sortedEntries db list ∧
    (sortedEntries db list).Pairwise (fun a b => sLt a.item b.item) ∧
    List.Perm ((sortedEntries db list).map ListEntry.item)
      ((listRows db list).map Row.item) := by
  have hrest0 : restRows db list "" = sortedList db list := by
    unfold restRows
    rw [if_pos rfl]
  refine ⟨?_, ?_, ?_⟩
  · have hlen : (restRows db list "").length ≤ fuel * P := by
      rw [hrest0, (sortedList_perm db list).length_eq]
      exact hfuel
    rw [paginateFrom_eq_rest hP hkey hne fuel "" hlen, hrest0]
    rfl
  · have hlt := sortedList_pairwise_lt list hkey
    unfold sortedEntries
    rw [List.pairwise_map]
    exact hlt
  · unfold sortedEntries
    rw [List.map_map]
    exact (sortedList_perm db list).map Row.item

/-- C1 (witness): a three-item list paged two at a time. -/
theorem getBatch_keyset_pagination_witness :
    paginateFrom [Row.mk "l" "b" 0, Row.mk "l" "a" 2, Row.mk "m" "z" 1, Row.mk "l" "c" 5]
        "l" 2 2 ""
      = sortedEntries [Row.mk "l" "b" 0, Row.mk "l" "a" 2, Row.mk "m" "z" 1, Row.mk "l" "c" 5] "l" ∧
    (sortedEntries [Row.mk "l" "b" 0, Row.mk "l" "a" 2, Row.mk "m" "z" 1, Row.mk "l" "c" 5]
        "l").Pairwise (fun a b => sLt a.item b.item) ∧
    List.Perm ((sortedEntries [Row.mk "l" "b" 0, Row.mk "l" "a" 2, Row.mk "m" "z" 1,
        Row.mk "l" "c" 5] "l").map ListEntry.item)
      ((listRows [Row.mk "l" "b" 0, Row.mk "l" "a" 2, Row.mk "m" "z" 1, Row.mk "l" "c" 5]
        "l").map Row.item) :=
  getBatch_keyset_pagination
    [Row.mk "l" "b" 0, Row.mk "l" "a" 2, Row.mk "m" "z" 1, Row.mk "l" "c" 5] "l" 2 2
    (by decide) (by decide) (by decide) (by decide)

theorem rowLe_mk {u v i j : String} {a b : Nat} :
    rowLe (Row.mk u i a) (Row.mk v j b) ↔ sLe i j := Iff.rfl

theorem orderedInsert_map_mkRow (list i : String) :
    ∀ l : List String,
      List.orderedInsert rowLe (Row.mk list i 0) (l.map (fun j => Row.mk list j 0))
        = (List.orderedInsert sLe i l).map (fun j => Row.mk list j 0)
  | [] => rfl
  | j :: t => by
    show List.orderedInsert rowLe (Row.mk list i 0)
        (Row.mk list j 0 :: t.map (fun j => Row.mk list j 0))
      = (List.orderedInsert sLe i (j :: t)).map (fun j => Row.mk list j 0)
    by_cases h : sLe i j
    · simp only [List.orderedInsert, if_pos h,
        if_pos (show rowLe (Row.mk list i 0) (Row.mk list j 0) from h)]
      rfl
    · simp only [List.orderedInsert, if_neg h,
        if_neg (show ¬ rowLe (Row.mk list i 0) (Row.mk list j 0) from h)]
      rw [List.map_cons, orderedInsert_map_mkRow list i t]

theorem insertionSort_map_mkRow (list : String) :
    ∀ items : List String,
      List.insertionSort rowLe (items.map (fun j => Row.mk list j 0))
        = (List.insertionSort sLe items).map (fun j => Row.mk list j 0)
  | [] => rfl
  | i :: t => by
    show List.orderedInsert rowLe (Row.mk list i 0)
        (List.insertionSort rowLe (t.map (fun j => Row.mk list j 0)))
      = (List.orderedInsert sLe i (List.insertionSort sLe t)).map
          (fun j => Row.mk list j 0)
    rw [insertionSort_map_mkRow list t, orderedInsert_map_mkRow]

/-- C2 (counterexample): the claim omits that the list must start empty.
With a pre-existing row `("l","a",0)`, inserting the fresh item `"z"`
(distinct, not present) succeeds, but `GetBatch("l","",1)` returns
`[("a",0)]` - the smallest stored item - and not the identifiers of the
inserted batch `["z"]`. -/
theorem insertBatch_getBatch_counterexample :
    (insertBatch [Row.mk "l" "a" 0] "l" ["z"] none).2.2 = none ∧
    (insertBatch [Row.mk "l" "a" 0] "l" ["z"] none).2.1 = 1 ∧
    getBatch (insertBatch [Row.mk "l" "a" 0] "l" ["z"] none).1 "l" "" 1
      = [ListEntry.mk "a" 0] ∧
    (getBatch (insertBatch [Row.mk "l" "a" 0] "l" ["z"] none).1 "l" "" 1).map
        ListEntry.item ≠ ["z"] := by
  decide

/-- C2 (amended): when the list holds no rows beforehand, inserting a
batch of distinct identifiers and then reading back `len(items)` entries
from the beginning returns exactly the inserted identifiers, sorted
ascending, each with `attempts = 0`. -/
theorem insertBatch_getBatch_roundtrip (db : DB) (list : String)
    (items : List String) (hempty : listRows db list = [])
    (hnd : items.Nodup) :
    (insertBatch db list items none).2.1 = items.length ∧
    (insertBatch db list items none).2.2 = none ∧
    getBatch (insertBatch db list items none).1 list "" items.length
      = (List.insertionSort sLe items).map (fun i => ListEntry.mk i 0) ∧
    List.Perm ((getBatch (insertBatch db list items none).1 list ""
        items.length).map ListEntry.item) items := by
  by_cases hitems : items = []
  · subst hitems
    refine ⟨rfl, rfl, ?_, ?_⟩ <;> simp [insertBatch, getBatch_eq]
  · have hTne : items.isEmpty = false := by
      cases items with
      | nil => exact absurd rfl hitems
      | cons a t => rfl
    have hnoex : ¬ ((∃ i ∈ items, db.any (rowMatches list i) = true) ∨ ¬ items.Nodup) := by
      push_neg
      refine ⟨?_, hnd⟩
      intro i hi
      intro hany
      obtain ⟨r, hr, hmatch⟩ := List.any_eq_true.mp hany
      obtain ⟨h1, _⟩ := rowMatches_iff.mp hmatch
      have : r ∈ listRows db list := by
        rw [listRows, List.mem_filter]
        exact ⟨hr, by simp [h1]⟩
      rw [hempty] at this
      simp at this
    have hins : insertBatch db list items none
        = (db ++ items.map (fun i => Row.mk list i 0), items.length, none) := by
      unfold insertBatch
      rw [if_neg (by simp [hTne]), if_neg hnoex]
    have hlistRows : listRows (db ++ items.map (fun i => Row.mk list i 0)) list
        = items.map (fun i => Row.mk list i 0) := by
      unfold listRows
      rw [List.filter_append]
      have h2 : (items.map (fun i => Row.mk list i 0)).filter
          (fun r => r.list == list) = items.map (fun i => Row.mk list i 0) := by
        rw [List.filter_eq_self]
        intro r hr
        obtain ⟨i, _, hri⟩ := List.mem_map.mp hr
        rw [← hri]
        simp
      rw [← listRows, hempty, h2, List.nil_append]
    have hgb : getBatch (db ++ items.map (fun i => Row.mk list i 0)) list ""
        items.length
        = (List.insertionSort sLe items).map (fun i => ListEntry.mk i 0) := by
      rw [getBatch_eq, if_neg (by simpa using hitems)]
      unfold selectRows whereRows
      rw [if_pos rfl, hlistRows, insertionSort_map_mkRow]
      have hlen : ((List.insertionSort sLe items).map
          (fun j => Row.mk list j 0)).length = items.length := by
        rw [List.length_map, (List.perm_insertionSort sLe items).length_eq]
      rw [List.take_of_length_le (le_of_eq hlen), List.map_map]
      rfl
    rw [hins]
    refine ⟨rfl, rfl, hgb, ?_⟩
    rw [hgb, List.map_map]
    have : (ListEntry.item ∘ fun i => ListEntry.mk i 0) = fun i : String => i := rfl
    rw [this, List.map_id']
    exact List.perm_insertionSort sLe items

/-- C2 (witness): two items inserted into the empty list `"l"` of a table
holding another list. -/
theorem insertBatch_getBatch_roundtrip_witness :
    (insertBatch [Row.mk "other" "x" 7] "l" ["b", "a"] none).2.1 = 2 ∧
    (insertBatch [Row.mk "other" "x" 7] "l" ["b", "a"] none).2.2 = none ∧
    getBatch (insertBatch [Row.mk "other" "x" 7] "l" ["b", "a"] none).1 "l" "" 2
      = (List.insertionSort sLe ["b", "a"]).map (fun i => ListEntry.mk i 0) ∧
    List.Perm ((getBatch (insertBatch [Row.mk "other" "x" 7] "l" ["b", "a"] none).1
        "l" "" 2).map ListEntry.item) ["b", "a"] :=
  insertBatch_getBatch_roundtrip [Row.mk "other" "x" 7] "l" ["b", "a"]
    (by decide) (by decide)

/-! ### Increment lemmas -/

theorem countP_rowMatches_eq_one {list item : String} :
    ∀ db : DB, keyUnique db → (∃ a, Row.mk list item a ∈ db) →
      db.countP (rowMatches list item) = 1
  | [], _, hmem => by
    obtain ⟨a, ha⟩ := hmem
    simp at ha
  | s :: t, hkey, hmem => by
    have hkey' : ((s :: t).map (fun r => (r.list, r.item))).Nodup := hkey
    rw [List.map_cons, List.nodup_cons] at hkey'
    obtain ⟨hnotin, hnd⟩ := hkey'
    obtain ⟨a, ha⟩ := hmem
    rcases List.mem_cons.mp ha with hs | ht
    · have hsl : s.list = list := by rw [← hs]
      have hsi : s.item = item := by rw [← hs]
      have hps : rowMatches list item s = true := rowMatches_iff.mpr ⟨hsl, hsi⟩
      have h0 : t.countP (rowMatches list item) = 0 := by
        rw [List.countP_eq_zero]
        intro r hr hpr
        obtain ⟨h1, h2⟩ := rowMatches_iff.mp hpr
        apply hnotin
        have hmm : (r.list, r.item) ∈ t.map (fun r => (r.list, r.item)) :=
          List.mem_map_of_mem _ hr
        rw [h1, h2, ← hsl, ← hsi] at hmm
        exact hmm
      rw [List.countP_cons, if_pos hps, h0]
    · have h1 : t.countP (rowMatches list item) = 1 :=
        countP_rowMatches_eq_one t hnd ⟨a, ht⟩
      have hps : rowMatches list item s = false := by
        rcases hq : rowMatches list item s
        · rfl
        · exfalso
          obtain ⟨hl, hi⟩ := rowMatches_iff.mp hq
          apply hnotin
          have hmm : ((Row.mk list item a).list, (Row.mk list item a).item)
              ∈ t.map (fun r => (r.list, r.item)) := List.mem_map_of_mem _ ht
          rw [← hl, ← hi] at hmm
          exact hmm
      rw [List.countP_cons, if_neg (by simp [hps]), h1]

theorem find?_rowMatches {db : DB} {list item : String} {a : Nat}
    (hkey : keyUnique db) (hmem : Row.mk list item a ∈ db) :
    db.find? (rowMatches list item) = some (Row.mk list item a) := by
  rcases hfind : db.find? (rowMatches list item) with _ | r
  · exfalso
    rw [List.find?_eq_none] at hfind
    exact hfind _ hmem (by simp [rowMatches])
  · have hp := List.find?_some hfind
    have hrmem := List.mem_of_find?_eq_some hfind
    obtain ⟨h1, h2⟩ := rowMatches_iff.mp hp
    have hkeq : (fun r : Row => (r.list, r.item)) r
        = (fun r : Row => (r.list, r.item)) (Row.mk list item a) := by
      simp [h1, h2]
    rw [List.inj_on_of_nodup_map hkey hrmem hmem hkeq]

theorem getOne_mem {db : DB} {list item : String} {a : Nat}
    (hkey : keyUnique db) (hmem : Row.mk list item a ∈ db) :
    getOne db list item none = (a, true, none) := by
  simp [getOne, find?_rowMatches hkey hmem]

theorem incrementOne_fst (db : DB) (list item : String) :
    (incrementOne db list item none).1
      = db.map (fun r => if rowMatches list item r then
          { r with attempts := r.attempts + 1 } else r) := rfl

theorem keyUnique_incrementOne {db : DB} {list item : String}
    (hkey : keyUnique db) : keyUnique (incrementOne db list item none).1 := by
  rw [incrementOne_fst]
  show ((db.map (fun r => if rowMatches list item r then
      { r with attempts := r.attempts + 1 } else r)).map
      (fun r => (r.list, r.item))).Nodup
  rw [List.map_map]
  have hfun : ((fun r : Row => (r.list, r.item)) ∘
      (fun r => if rowMatches list item r then
        { r with attempts := r.attempts + 1 } else r))
      = fun r : Row => (r.list, r.item) := by
    funext r
    by_cases h : rowMatches list item r <;> simp [h]
  rw [hfun]
  exact hkey

theorem mem_incrementOne {db : DB} {list item : String} {a : Nat}
    (hmem : Row.mk list item a ∈ db) :
    Row.mk list item (a + 1) ∈ (incrementOne db list item none).1 := by
  rw [incrementOne_fst]
  have h := List.mem_map_of_mem
    (fun r => if rowMatches list item r then
      { r with attempts := r.attempts + 1 } else r) hmem
  simpa [rowMatches] using h

/-- `N` successive `IncrementOne(list, item)` calls against a healthy
backing store, starting from table state `db`. -/
def incNState (db : DB) (list item : String) : Nat → DB
  | 0 => db
  | n + 1 => (incrementOne (incNState db list item n) list item none).1

theorem incNState_invariant {db : DB} {list item : String} {a : Nat}
    (hkey : keyUnique db) (hmem : Row.mk list item a ∈ db) :
    ∀ n, Row.mk list item (a + n) ∈ incNState db list item n
      ∧ keyUnique (incNState db list item n)
  | 0 => ⟨hmem, hkey⟩
  | n + 1 => by
    obtain ⟨hm, hk⟩ := incNState_invariant hkey hmem n
    refine ⟨?_, keyUnique_incrementOne hk⟩
    show Row.mk list item (a + (n + 1))
      ∈ (incrementOne (incNState db list item n) list item none).1
    rw [Nat.add_succ]
    exact mem_incrementOne hm

/-- C3: starting from a table whose row `(list, item)` holds `attempts = a`,
a sequence of `N` successful `IncrementOne(list, item)` calls leaves the
row's attempts at `a + N`, and every one of those calls reports
`affected = 1`; moreover `IncrementBatch` (the only other mutator of
`attempts`) never decreases any row's counter: each stored row survives
with the same key and with `attempts` unchanged or exactly one larger. -/
theorem incrementOne_n_times (db : DB) (list item : String) (a N : Nat)
    (hkey : keyUnique db) (hmem : Row.mk list item a ∈ db) :
    getOne (incNState db list item N) list item none = (a + N, true, none) ∧
    (∀ k, k < N → (incrementOne (incNState db list item k) list item none).2.1 = 1) ∧
    (∀ (list' : String) (items : List String) (r : Row), r ∈ db →
      ∃ r' ∈ (incrementBatch db list' items none).1,
        r'.list = r.list ∧ r'.item = r.item ∧
        (r'.attempts = r.attempts ∨ r'.attempts = r.attempts + 1)) := by
  refine ⟨?_, ?_, ?_⟩
  · obtain ⟨hm, hk⟩ := incNState_invariant hkey hmem N
    exact getOne_mem hk hm
  · intro k _
    obtain ⟨hm, hk⟩ := incNState_invariant hkey hmem k
    show (incNState db list item k).countP (rowMatches list item) = 1
    exact countP_rowMatches_eq_one _ hk ⟨a + k, hm⟩
  · intro list' items r hr
    by_cases hit : items.isEmpty
    · refine ⟨r, ?_, rfl, rfl, Or.inl rfl⟩
      simpa [incrementBatch, hit] using hr
    · have hfst : (incrementBatch db list' items none).1
          = db.map (fun s => if s.list == list' && items.contains s.item then
              { s with attempts := s.attempts + 1 } else s) := by
        simp [incrementBatch, hit]
      refine ⟨if r.list == list' && items.contains r.item then
          { r with attempts := r.attempts + 1 } else r, ?_, ?_, ?_, ?_⟩
      · rw [hfst]
        exact List.mem_map_of_mem _ hr
      · split <;> rfl
      · split <;> rfl
      · split
        · exact Or.inr rfl
        · exact Or.inl rfl

/-- C3 (witness): three increments of `("l","a")` starting at 2. -/
theorem incrementOne_n_times_witness :
    getOne (incNState [Row.mk "l" "a" 2] "l" "a" 3) "l" "a" none = (5, true, none) ∧
    (incrementOne (incNState [Row.mk "l" "a" 2] "l" "a" 1) "l" "a" none).2.1 = 1 :=
  ⟨(incrementOne_n_times [Row.mk "l" "a" 2] "l" "a" 2 3
      (by decide) (by decide)).1,
   (incrementOne_n_times [Row.mk "l" "a" 2] "l" "a" 2 3
      (by decide) (by decide)).2.1 1 (by decide)⟩

/-- C4: `GetOne` and `DeleteOne` on a `(list, item)` pair that was never
inserted - whether the item is missing from an existing list or the whole
list never existed - return `(0, false, nil)` and `(db unchanged, 0, nil)`
respectively; neither outcome is an error. -/
theorem getOne_deleteOne_never_inserted (db : DB) (list item : String)
    (habs : ∀ r ∈ db, ¬ (r.list = list ∧ r.item = item)) :
    getOne db list item none = (0, false, none) ∧
    deleteOne db list item none = (db, 0, none) := by
  have hfalse : ∀ r ∈ db, rowMatches list item r = false := by
    intro r hr
    rcases h : rowMatches list item r
    · rfl
    · exact absurd (rowMatches_iff.mp h) (habs r hr)
  have hnone : db.find? (rowMatches list item) = none := by
    rw [List.find?_eq_none]
    intro r hr
    rw [hfalse r hr]
    simp
  constructor
  · simp [getOne, hnone]
  · show (db.filter (fun r => !(rowMatches list item r)),
      db.countP (rowMatches list item), none) = (db, 0, none)
    rw [show db.filter (fun r => !(rowMatches list item r)) = db from
      List.filter_eq_self.mpr (fun r hr => by rw [hfalse r hr]; rfl)]
    rw [List.countP_eq_zero.mpr (fun r hr => by rw [hfalse r hr]; simp)]

/-- C4 (witness): item `"b"` missing from list `"l"`, and list `"m"`
never created. -/
theorem getOne_deleteOne_never_inserted_witness :
    getOne [Row.mk "l" "a" 2] "l" "b" none = (0, false, none) ∧
    deleteOne [Row.mk "l" "a" 2] "l" "b" none = ([Row.mk "l" "a" 2], 0, none) ∧
    getOne [Row.mk "l" "a" 2] "m" "a" none = (0, false, none) :=
  ⟨(getOne_deleteOne_never_inserted [Row.mk "l" "a" 2] "l" "b" (by decide)).1,
   (getOne_deleteOne_never_inserted [Row.mk "l" "a" 2] "l" "b" (by decide)).2,
   (getOne_deleteOne_never_inserted [Row.mk "l" "a" 2] "m" "a" (by decide)).1⟩

/-- C5: evaluation of `GetBatch` at the failing input.  When the query
succeeds and every `rows.Scan` succeeds but `rows.Err()` reports a
mid-iteration failure, the source executes `return nil, err` with the
stale scan-loop variable `err` (nil) instead of `rows.Err()`: the caller
receives `(nil, nil)` - an apparent success with an empty page - in
violation of "a non-nil opaque error whenever the query or row iteration
fails".  A failure of the initial query, by contrast, is correctly
wrapped and reported. -/
theorem getBatch_rowsErr_swallowed :
    getBatchGo [Row.mk "l" "a" 0, Row.mk "l" "b" 1] "l" "" 2
      ⟨none, none, some (PgxError.mk "08006" "connection lost")⟩ = ([], none) ∧
    getBatchGo [Row.mk "l" "a" 0, Row.mk "l" "b" 1] "l" "" 2 noFault
      = ([ListEntry.mk "a" 0, ListEntry.mk "b" 1], none) ∧
    getBatchGo [Row.mk "l" "a" 0, Row.mk "l" "b" 1] "l" "" 2
      ⟨some (PgxError.mk "08006" "connection lost"), none, none⟩
      = ([], some "connection lost") ∧
    getBatchGo [Row.mk "l" "a" 0, Row.mk "l" "b" 1] "l" "" 2
      ⟨none, some (0, PgxError.mk "57014" "query canceled"), none⟩
      = ([], some "query canceled") := by
  decide

/-- C6: `InsertBatch`, `DeleteBatch` and `IncrementBatch` called with an
empty (or nil) items sequence return `(0, nil)` without touching the
backing store at all - the early return precedes any pool call, so the
table is unchanged even under an injected backend fault. -/
theorem emptyBatch_noop (db : DB) (list : String) (fault : Option PgxError) :
    insertBatch db list [] fault = (db, 0, none) ∧
    deleteBatch db list [] fault = (db, 0, none) ∧
    incrementBatch db list [] fault = (db, 0, none) := by
  refine ⟨?_, ?_, ?_⟩ <;> rfl

/-- C7: `GetBatch` with `count = 0` returns an empty sequence and nil
error before querying - for every table state, list name and cursor,
populated or not - and `GetBatch` on a list with no rows, whether emptied
or never created, returns an empty sequence and nil error for any count,
so this call cannot distinguish the two situations. -/
theorem getBatch_zero_or_missing (db : DB) (list after : String) (count : Nat) :
    getBatchGo db list after 0 noFault = ([], none) ∧
    (listRows db list = [] → getBatchGo db list after count noFault = ([], none)) := by
  constructor
  · rfl
  · intro hmiss
    by_cases hc : count = 0
    · simp [getBatchGo, hc]
    · have hsel : selectRows db list after count = [] := by
        unfold selectRows whereRows
        rw [hmiss]
        by_cases h : after = "" <;> simp [h]
      simp [getBatchGo, hc, noFault, scanRows, hsel]

/-- C7 (witness): `count = 0` on the populated list `"l"` returns empty
and error-free; querying the never-created list `"zzz"` with `count = 5`
does too. -/
theorem getBatch_zero_or_missing_witness :
    getBatchGo [Row.mk "l" "a" 3] "l" "" 0 noFault = ([], none) ∧
    getBatchGo [Row.mk "l" "a" 3] "zzz" "" 5 noFault = ([], none) :=
  ⟨(getBatch_zero_or_missing [Row.mk "l" "a" 3] "l" "" 5).1,
   (getBatch_zero_or_missing [Row.mk "l" "a" 3] "zzz" "" 5).2 (by decide)⟩

/-- C8: the plain-text codec trims leading/trailing whitespace of the
whole payload and then splits on newline, in that order; a zero-byte
payload short-circuits to an empty (nil) sequence - not the one-element
sequence containing `""` that trim-then-split would give - and the
plain-text path of `getItemsFromBody` never returns an error, for any
JSON decoder and any non-JSON content type. -/
theorem plaintext_codec_trim_then_split
    (jd : String → Except String (List String)) (contentType body : String)
    (hct : contentType ≠ "application/json") :
    getItemsFromPlainText body
      = (if body = "" then [] else splitOnNewline (trimSpace body)) ∧
    getItemsFromPlainText "" = [] ∧
    splitOnNewline (trimSpace "") = [""] ∧
    getItemsFromBody jd contentType body
      = Except.ok (getItemsFromPlainText body) := by
  refine ⟨rfl, rfl, rfl, ?_⟩
  unfold getItemsFromBody
  by_cases hb : body = ""
  · rw [if_pos hb]
    subst hb
    rfl
  · rw [if_neg hb, if_neg hct]

/-- C8 (witness): a payload with surrounding whitespace, parsed under the
`text/plain` content type with a JSON decoder that always fails. -/
theorem plaintext_codec_trim_then_split_witness :
    getItemsFromPlainText "  a\nb "
      = (if ("  a\nb " : String) = "" then []
         else splitOnNewline (trimSpace "  a\nb ")) ∧
    getItemsFromPlainText "" = [] ∧
    splitOnNewline (trimSpace "") = [""] ∧
    getItemsFromBody (fun s => Except.error s) "text/plain" "  a\nb "
      = Except.ok (getItemsFromPlainText "  a\nb ") :=
  plaintext_codec_trim_then_split (fun s => Except.error s) "text/plain"
    "  a\nb " (by decide)

/-- C9: an absent (`""`) or unrecognized Content-Type signal makes the
negotiated content type `text/plain`; under it, request parsing takes the
plain-text path (never an error, for any JSON decoder) and response
formatting selects the plain-text encoding. -/
theorem unknown_contentType_defaults_plaintext (header body : String)
    (jd : String → Except String (List String))
    (hunk : header = "" ∨ ¬ header ∈ HandledContentTypes) :
    finalContentType header = "text/plain" ∧
    getItemsFromBody jd (finalContentType header) body
      = Except.ok (getItemsFromPlainText body) ∧
    responseEncoding (finalContentType header) = Encoding.plainText := by
  have hf : finalContentType header = "text/plain" := by
    unfold finalContentType
    rw [if_pos hunk]
  refine ⟨hf, ?_, ?_⟩
  · rw [hf]
    unfold getItemsFromBody
    by_cases hb : body = ""
    · rw [if_pos hb]
      subst hb
      rfl
    · rw [if_neg hb,
        if_neg (show ¬ ("text/plain" : String) = "application/json" by decide)]
  · rw [hf]
    unfold responseEncoding
    rw [if_neg (show ¬ ("text/plain" : String) = "application/json" by decide)]

/-- C9 (witness): the unhandled content type `application/xml`. -/
theorem unknown_contentType_defaults_plaintext_witness :
    finalContentType "application/xml" = "text/plain" ∧
    getItemsFromBody (fun s => Except.error s)
        (finalContentType "application/xml") "a\nb"
      = Except.ok (getItemsFromPlainText "a\nb") ∧
    responseEncoding (finalContentType "application/xml") = Encoding.plainText :=
  unknown_contentType_defaults_plaintext "application/xml" "a\nb"
    (fun s => Except.error s) (by decide)

/-- C10: a non-empty payload consisting only of whitespace escapes the
zero-byte guard, trims to the empty string, and splitting the empty
string on newline yields one empty piece - so the codec produces the
one-element sequence containing the empty-string item identifier, not an
empty sequence. -/
theorem whitespace_only_payload_single_empty_item (body : String)
    (hne : body ≠ "") (hws : ∀ c ∈ body.data, goIsSpace c = true) :
    getItemsFromPlainText body = [""] := by
  have htrim : trimSpace body = String.mk [] := by
    unfold trimSpace
    rw [List.dropWhile_eq_nil_iff.mpr hws]
    rfl
  unfold getItemsFromPlainText
  rw [if_neg hne, htrim]
  rfl

/-- C10 (witness): an ASCII whitespace payload (spaces and a newline) and
a non-Latin-1 one (IDEOGRAPHIC SPACE, EM SPACE, space) both parse to the
single empty-string item. -/
theorem whitespace_only_payload_single_empty_item_witness :
    getItemsFromPlainText "  \n " = [""] ∧
    getItemsFromPlainText "\u3000\u2003 " = [""] :=
  ⟨whitespace_only_payload_single_empty_item "  \n " (by decide) (by decide),
   whitespace_only_payload_single_empty_item "\u3000\u2003 " (by decide) (by decide)⟩

end Iidy

